import Mathlib

/-!
Shallow embedding of the core of a Unix domain socket library
(`src/lib.rs`): the address codec (`sockaddr_un` encoding,
`SocketAddr::new` validation, `SocketAddr::address` classification), the
timeout `timeval` computation of `Inner::set_timeout`, the zero-byte
handling of `UnixDatagram::recv_from`, and the `Incoming` accept
iterator.

Machine byte arrays become `List Nat`; platform constants — the
`sun_path` capacity, the `sun_path` field offset within `sockaddr_un`,
and `libc::time_t::max_value()` — become explicit parameters (`cap`,
`off`, `tmax`); the `cfg!(target_os = "linux")` test becomes a Boolean
parameter; fallible operations return `Except`.
-/

/-- The two error kinds the library produces: `InvalidInput` validation
failures, and errors surfaced from a failing OS call
(`io::Error::last_os_error()`). -/
inductive IoErrorKind where
  | invalidInput
  | osError
deriving DecidableEq, Repr

/-- An error value: its kind plus the message the library attaches (for
OS errors the message comes from the OS and is not modelled precisely). -/
structure IoError where
  kind : IoErrorKind
  msg : String
deriving DecidableEq, Repr

/-- The Unix-domain address family constant `libc::AF_UNIX`. -/
def AF_UNIX : Nat := 1

/-- The `libc::sockaddr_un` structure: the `sun_family` field and the
fixed-capacity `sun_path` byte array, modelled as a list of byte
values (in the encoder's output the list always has length `cap`). -/
structure SockaddrUn where
  sun_family : Nat
  sun_path : List Nat
deriving DecidableEq, Repr

/-- The function `sockaddr_un(path)` of `src/lib.rs`: zero the structure,
set `sun_family` to `AF_UNIX`, and match on
`(bytes.get(0), bytes.len().cmp(&sun_path.len()))` exactly as the source
does — `(Some(&0), Greater)` errors with "no longer than SUN_LEN",
any other `Greater` or `Equal` errors with "shorter than SUN_LEN" —
then copy the path bytes at offset 0 of `sun_path` (the rest stays
zero) and compute the total length
`sun_path_offset() + bytes.len() (+ 1 when the first byte exists and is
nonzero)`. `cap` models `sun_path.len()` and `off` models
`sun_path_offset()`. -/
def sockaddr_un (cap off : Nat) (bytes : List Nat) :
    Except IoError (SockaddrUn × Nat) :=
  if bytes.head? = some 0 ∧ cap < bytes.length then
    .error ⟨.invalidInput, "path must be no longer than SUN_LEN"⟩
  else if cap ≤ bytes.length then
    .error ⟨.invalidInput, "path must be shorter than SUN_LEN"⟩
  else
    let sp := bytes ++ List.replicate (cap - bytes.length) 0
    let extra : Nat :=
      match bytes.head? with
      | some 0 => 0
      | none => 0
      | some _ => 1
    .ok (⟨AF_UNIX, sp⟩, off + bytes.length + extra)

/-- `Bool`-valued success test for `sockaddr_un`, used to state boundary
facts executably. -/
def encodeOk (cap off : Nat) (bytes : List Nat) : Bool :=
  match sockaddr_un cap off bytes with
  | .ok _ => true
  | .error _ => false

/-- The classified form of a decoded address (`AddressKind` in the
source): unnamed, a filesystem pathname, or a Linux abstract-namespace
name. -/
inductive AddressKind where
  | Unnamed
  | Pathname (path : List Nat)
  | Abstract (name : List Nat)
deriving DecidableEq, Repr

/-- A raw address as returned by the OS: the structure plus the length
the OS reported (`SocketAddr` in the source). -/
structure SocketAddr where
  addr : SockaddrUn
  len : Nat
deriving DecidableEq, Repr

/-- `SocketAddr::new`: run the OS call (its return value is `osRet`, the
structure and length it filled in are `addr` and `len`), translate a
negative return through `cvt` into an OS error, then require
`sun_family == AF_UNIX`, failing with `InvalidInput` otherwise. -/
def SocketAddr.new (osRet : Int) (addr : SockaddrUn) (len : Nat) :
    Except IoError SocketAddr :=
  if osRet < 0 then
    .error ⟨.osError, "last OS error"⟩
  else if addr.sun_family ≠ AF_UNIX then
    .error ⟨.invalidInput, "file descriptor did not correspond to a Unix socket"⟩
  else
    .ok ⟨addr, len⟩

/-- `SocketAddr::address`: with `len := self.len - sun_path_offset()`,
return `Unnamed` when `len == 0` or (off Linux) when the first `sun_path`
byte is zero; otherwise `Abstract(&path[1..len])` when the first byte is
zero; otherwise `Pathname(&path[..len - 1])`. `isLinux` models
`cfg!(target_os = "linux")` and `off` models `sun_path_offset()`. -/
def SocketAddr.address (isLinux : Bool) (off : Nat) (sa : SocketAddr) :
    AddressKind :=
  let len := sa.len - off
  if len = 0 ∨ (isLinux = false ∧ sa.addr.sun_path.head? = some 0) then
    .Unnamed
  else if sa.addr.sun_path.head? = some 0 then
    .Abstract ((sa.addr.sun_path.take len).drop 1)
  else
    .Pathname (sa.addr.sun_path.take (len - 1))

/-- `UnixDatagram::recv_from`: the closure handed to `SocketAddr::new`
returns `1` when the `recvfrom` count is positive, `0` when it is zero
and `-1` when it is negative, so `cvt` raises an OS error exactly for a
negative count; on success the count is returned as `count as usize`
together with the decoded sender address. -/
def recv_from (count : Int) (addr : SockaddrUn) (len : Nat) :
    Except IoError (Nat × SocketAddr) :=
  let r : Int := if 0 < count then 1 else if count = 0 then 0 else -1
  match SocketAddr.new r addr len with
  | .error e => .error e
  | .ok sa => .ok (count.toNat, sa)

/-- `std::time::Duration` as used by `Inner::set_timeout`: whole seconds
plus the extra nanoseconds below one second (`extra_nanos < 10^9` in any
real value). -/
structure Duration where
  secs : Nat
  extra_nanos : Nat
deriving DecidableEq, Repr

/-- `libc::timeval`: seconds and microseconds. -/
structure Timeval where
  tv_sec : Nat
  tv_usec : Nat
deriving DecidableEq, Repr

/-- The `timeval` computation of `Inner::set_timeout` (feature
`socket_timeout`), up to but not including the `setsockopt` call: `None`
gives the all-zero `timeval`; a zero `Duration` is rejected with
`InvalidInput` before any OS call; otherwise the seconds are clamped to
`tmax` (modelling `libc::time_t::max_value()`), the microseconds are
`extra_nanos / 1000`, and an all-zero result has `tv_usec` bumped to 1. -/
def set_timeout (tmax : Nat) (dur : Option Duration) :
    Except IoError Timeval :=
  match dur with
  | some d =>
    if d.secs = 0 ∧ d.extra_nanos = 0 then
      .error ⟨.invalidInput, "cannot set a 0 duration timeout"⟩
    else
      let secs := if tmax < d.secs then tmax else d.secs
      let tv : Timeval := ⟨secs, d.extra_nanos / 1000⟩
      if tv.tv_sec = 0 ∧ tv.tv_usec = 0 then
        .ok ⟨tv.tv_sec, 1⟩
      else
        .ok tv
  | none => .ok ⟨0, 0⟩

/-- A stream socket handle: wraps one raw descriptor. -/
structure UnixStream where
  fd : Int
deriving DecidableEq, Repr

/-- A listener socket handle: wraps one raw descriptor. -/
structure UnixListener where
  fd : Int
deriving DecidableEq, Repr

/-- The OS side of `accept`: an oracle giving the result of each
successive `accept` call on the listener (a fresh descriptor or an
error) and a counter of the calls made so far. -/
structure OsWorld where
  acceptResults : Nat → Except IoError Int
  acceptCount : Nat

/-- `UnixListener::accept`: one blocking OS accept call; a success wraps
the new descriptor in a `UnixStream`, a failure is returned as the OS
error; the listener itself is untouched either way. -/
def UnixListener.accept (l : UnixListener) (w : OsWorld) :
    Except IoError UnixStream × OsWorld :=
  (match w.acceptResults w.acceptCount with
   | .ok fd => .ok ⟨fd⟩
   | .error e => .error e,
   ⟨w.acceptResults, w.acceptCount + 1⟩)

/-- The result of one OS accept outcome as `accept` wraps it. -/
def acceptWrap (r : Except IoError Int) : Except IoError UnixStream :=
  match r with
  | .ok fd => .ok ⟨fd⟩
  | .error e => .error e

/-- `Incoming`: holds only a (non-owning) reference to the listener; no
other state. -/
structure Incoming where
  listener : UnixListener
deriving DecidableEq, Repr

/-- `Incoming::next`: `Some(self.listener.accept())` — always `Some` of
one fresh accept call; the iterator value itself is unchanged. -/
def Incoming.next (inc : Incoming) (w : OsWorld) :
    Option (Except IoError UnixStream) × Incoming × OsWorld :=
  let r := inc.listener.accept w
  (some r.1, inc, r.2)

/-- Pull the iterator `n` times in sequence, collecting the produced
items and threading the iterator and OS state. -/
def Incoming.pulls (inc : Incoming) (w : OsWorld) :
    Nat → List (Option (Except IoError UnixStream)) × Incoming × OsWorld
  | 0 => ([], inc, w)
  | n + 1 =>
    let s := Incoming.next inc w
    let rest := Incoming.pulls s.2.1 s.2.2 n
    (s.1 :: rest.1, rest.2)

/-! ### Helper lemmas -/

/-- When the path is strictly shorter than the capacity, `sockaddr_un`
takes its success branch. -/
theorem sockaddr_un_of_lt (cap off : Nat) (bytes : List Nat)
    (h : bytes.length < cap) :
    sockaddr_un cap off bytes =
      .ok (⟨AF_UNIX, bytes ++ List.replicate (cap - bytes.length) 0⟩,
        off + bytes.length +
          (match bytes.head? with
           | some 0 => 0
           | none => 0
           | some _ => 1)) := by
  have h1 : ¬(bytes.head? = some 0 ∧ cap < bytes.length) := by
    rintro ⟨-, hc⟩; omega
  have h2 : ¬(cap ≤ bytes.length) := by omega
  unfold sockaddr_un
  rw [if_neg h1, if_neg h2]

/-- When the path is not strictly shorter than the capacity,
`sockaddr_un` fails with an `InvalidInput` error. -/
theorem sockaddr_un_of_ge (cap off : Nat) (bytes : List Nat)
    (h : cap ≤ bytes.length) :
    ∃ msg, sockaddr_un cap off bytes = .error ⟨.invalidInput, msg⟩ := by
  unfold sockaddr_un
  by_cases h1 : bytes.head? = some 0 ∧ cap < bytes.length
  · exact ⟨_, by rw [if_pos h1]⟩
  · exact ⟨_, by rw [if_neg h1, if_pos h]⟩

/-- Success branch of `sockaddr_un` for a pathname path (nonzero first
byte): the total length gains the extra byte for the trailing NUL. -/
theorem sockaddr_un_pathname (cap off n : Nat) (t : List Nat)
    (h : t.length + 1 < cap) :
    sockaddr_un cap off (Nat.succ n :: t) =
      .ok (⟨AF_UNIX, (Nat.succ n :: t) ++ List.replicate (cap - (t.length + 1)) 0⟩,
        off + (t.length + 1) + 1) := by
  rw [sockaddr_un_of_lt cap off (Nat.succ n :: t) (by simpa using h)]
  rfl

/-- Success branch of `sockaddr_un` for an abstract path (leading zero
byte): no extra byte is added to the total length. -/
theorem sockaddr_un_abstract (cap off : Nat) (t : List Nat)
    (h : t.length + 1 < cap) :
    sockaddr_un cap off (0 :: t) =
      .ok (⟨AF_UNIX, (0 :: t) ++ List.replicate (cap - (t.length + 1)) 0⟩,
        off + (t.length + 1)) := by
  rw [sockaddr_un_of_lt cap off (0 :: t) (by simpa using h)]
  rfl

/-- `SocketAddr.address` with its `let` expanded, for case analysis. -/
theorem address_cases (plat : Bool) (off : Nat) (sa : SocketAddr) :
    SocketAddr.address plat off sa =
      if sa.len - off = 0 ∨ (plat = false ∧ sa.addr.sun_path.head? = some 0) then
        .Unnamed
      else if sa.addr.sun_path.head? = some 0 then
        .Abstract ((sa.addr.sun_path.take (sa.len - off)).drop 1)
      else
        .Pathname (sa.addr.sun_path.take (sa.len - off - 1)) := rfl

/-! ### Claims -/

/-- C1 counterexample: with the Linux `sun_path` capacity 108 and a
pathname path (first byte nonzero) of 107 bytes — whose encoded form,
path plus the required trailing NUL, occupies exactly the full
capacity — `sockaddr_un` succeeds, whereas the claim requires an encoded
form of exactly the maximum capacity to fail. -/
theorem c1_counterexample :
    (List.replicate 107 1).head? = some 1 ∧
    (List.replicate 107 1).length + 1 = 108 ∧
    encodeOk 108 2 (List.replicate 107 1) = true := by
  refine ⟨rfl, rfl, by decide⟩

/-- C1 (amended): `sockaddr_un` fails, with an `InvalidInput` error,
exactly when the path byte sequence is not strictly shorter than the
`sun_path` capacity, in both modes: a pathname path succeeds iff the
path itself is strictly shorter than the capacity — its encoded form
with the trailing NUL may occupy exactly the full capacity — and an
abstract path (leading zero byte) succeeds iff the whole sequence
including the leading zero is strictly shorter than the capacity. -/
theorem c1_encode_length_bound (cap off : Nat) (bytes : List Nat) :
    (encodeOk cap off bytes = true ↔ bytes.length < cap) ∧
    (cap ≤ bytes.length →
      ∃ msg, sockaddr_un cap off bytes = .error ⟨.invalidInput, msg⟩) := by
  constructor
  · constructor
    · intro hok
      by_contra hge
      obtain ⟨msg, hmsg⟩ := sockaddr_un_of_ge cap off bytes (by omega)
      simp [encodeOk, hmsg] at hok
    · intro hlt
      simp [encodeOk, sockaddr_un_of_lt cap off bytes hlt]
  · exact sockaddr_un_of_ge cap off bytes

/-- C1 amended-claim witness: with capacity 3, a 2-byte pathname path
encodes and a 3-byte path fails with `InvalidInput`. -/
theorem c1_encode_length_bound_witness :
    encodeOk 3 2 [1, 2] = true ∧
    (∃ msg, sockaddr_un 3 2 [1, 2, 3] = .error ⟨.invalidInput, msg⟩) :=
  ⟨(c1_encode_length_bound 3 2 [1, 2]).1.mpr (by decide),
   (c1_encode_length_bound 3 2 [1, 2, 3]).2 (by decide)⟩

/-- C2: for every nonempty pathname path (first byte nonzero) strictly
shorter than the capacity, decoding the structure and length produced by
`sockaddr_un` yields `Pathname` of exactly the original path, on any
platform: the encoder provides the trailing NUL through the zeroed
buffer and the decoder strips exactly that byte. -/
theorem c2_pathname_roundtrip (plat : Bool) (cap off : Nat)
    (bytes : List Nat) (b : Nat) (hb : bytes.head? = some b) (hb0 : b ≠ 0)
    (hlen : bytes.length < cap) :
    ∃ sa len, sockaddr_un cap off bytes = .ok (sa, len) ∧
      SocketAddr.address plat off ⟨sa, len⟩ = .Pathname bytes := by
  cases bytes with
  | nil => simp at hb
  | cons x t =>
    simp only [List.head?_cons, Option.some.injEq] at hb
    subst hb
    cases x with
    | zero => exact absurd rfl hb0
    | succ n =>
      have hlen2 : t.length + 1 < cap := by
        simpa using hlen
      refine ⟨_, _, sockaddr_un_pathname cap off n t hlen2, ?_⟩
      rw [address_cases]
      dsimp only [List.cons_append, List.head?_cons]
      have h1 : ¬(off + (t.length + 1) + 1 - off = 0 ∨
          (plat = false ∧ some (Nat.succ n) = some (0 : Nat))) := by
        rintro (h | ⟨-, h⟩)
        · omega
        · simp at h
      have h2 : ¬(some (Nat.succ n) = some (0 : Nat)) := by simp
      rw [if_neg h1, if_neg h2]
      have h3 : off + (t.length + 1) + 1 - off - 1 = t.length + 1 := by omega
      rw [h3, List.take_succ_cons, List.take_left]

/-- C2 witness at a concrete pathname path. -/
theorem c2_pathname_roundtrip_witness :
    ∃ sa len, sockaddr_un 108 2 [104, 105] = .ok (sa, len) ∧
      SocketAddr.address true 2 ⟨sa, len⟩ = .Pathname [104, 105] :=
  c2_pathname_roundtrip true 108 2 [104, 105] 104 rfl (by decide) (by decide)

/-- C3: on Linux, for every abstract path (leading zero byte) strictly
shorter than the capacity, decoding the structure and length produced by
`sockaddr_un` yields `Abstract` of the bytes after the leading zero,
unmodified and with no trailing-NUL handling. -/
theorem c3_abstract_roundtrip (cap off : Nat) (bytes : List Nat)
    (hb : bytes.head? = some 0) (hlen : bytes.length < cap) :
    ∃ sa len, sockaddr_un cap off bytes = .ok (sa, len) ∧
      SocketAddr.address true off ⟨sa, len⟩ = .Abstract (bytes.drop 1) := by
  cases bytes with
  | nil => simp at hb
  | cons x t =>
    simp only [List.head?_cons, Option.some.injEq] at hb
    subst hb
    have hlen2 : t.length + 1 < cap := by
      simpa using hlen
    refine ⟨_, _, sockaddr_un_abstract cap off t hlen2, ?_⟩
    rw [address_cases]
    dsimp only [List.cons_append, List.head?_cons]
    have h1 : ¬(off + (t.length + 1) - off = 0 ∨
        (true = false ∧ some (0 : Nat) = some (0 : Nat))) := by
      rintro (h | ⟨h, -⟩)
      · omega
      · simp at h
    rw [if_neg h1, if_pos rfl]
    have h3 : off + (t.length + 1) - off = t.length + 1 := by omega
    rw [h3, List.take_succ_cons, List.take_left]

/-- C3 witness at a concrete abstract path. -/
theorem c3_abstract_roundtrip_witness :
    ∃ sa len, sockaddr_un 108 2 [0, 97] = .ok (sa, len) ∧
      SocketAddr.address true 2 ⟨sa, len⟩ = .Abstract [97] :=
  c3_abstract_roundtrip 108 2 [0, 97] rfl (by decide)

/-- C4: for every path accepted by `sockaddr_un`, the returned total
length is the path-field offset plus the path byte count plus one for a
nonempty pathname (zero for an abstract or empty path); the family field
is `AF_UNIX`, the path bytes sit at offset 0 of `sun_path`, and every
remaining `sun_path` byte is zero. -/
theorem c4_encode_result_shape (cap off : Nat) (bytes : List Nat)
    (sa : SockaddrUn) (len : Nat)
    (h : sockaddr_un cap off bytes = .ok (sa, len)) :
    len = off + bytes.length +
        (if bytes.head? = some 0 ∨ bytes = [] then 0 else 1) ∧
    sa.sun_family = AF_UNIX ∧
    sa.sun_path.take bytes.length = bytes ∧
    sa.sun_path.drop bytes.length = List.replicate (cap - bytes.length) 0 := by
  have hlt : bytes.length < cap := by
    by_contra hge
    obtain ⟨msg, hmsg⟩ := sockaddr_un_of_ge cap off bytes (by omega)
    rw [hmsg] at h
    exact Except.noConfusion h
  rw [sockaddr_un_of_lt cap off bytes hlt] at h
  simp only [Except.ok.injEq, Prod.mk.injEq] at h
  obtain ⟨hsa, hlen⟩ := h
  subst hsa
  subst hlen
  refine ⟨?_, rfl, List.take_left bytes _, List.drop_left bytes _⟩
  congr 1
  cases bytes with
  | nil => rfl
  | cons x t =>
    cases x with
    | zero => simp
    | succ n => simp

/-- C4 witness at a concrete accepted pathname path. -/
theorem c4_encode_result_shape_witness :
    (5 : Nat) = 2 + 2 +
        (if ([1, 2] : List Nat).head? = some 0 ∨ ([1, 2] : List Nat) = [] then 0 else 1) ∧
    (SockaddrUn.mk AF_UNIX [1, 2, 0, 0]).sun_family = AF_UNIX ∧
    (SockaddrUn.mk AF_UNIX [1, 2, 0, 0]).sun_path.take 2 = [1, 2] ∧
    (SockaddrUn.mk AF_UNIX [1, 2, 0, 0]).sun_path.drop 2 = List.replicate (4 - 2) 0 :=
  c4_encode_result_shape 4 2 [1, 2] ⟨AF_UNIX, [1, 2, 0, 0]⟩ 5 rfl

/-- C5: `SocketAddr::address` classifies solely from the effective path
length (reported length minus the path-field offset) and the first
`sun_path` byte, with the non-Linux special case handled separately
(C10): effective length zero yields `Unnamed`; otherwise, on Linux, a
zero first byte yields `Abstract` of the bytes after the leading zero;
otherwise a nonzero first byte yields `Pathname` of the bytes with the
trailing NUL stripped. -/
theorem c5_address_classification (plat : Bool) (off : Nat)
    (sa : SocketAddr) :
    (sa.len - off = 0 → SocketAddr.address plat off sa = .Unnamed) ∧
    (sa.len - off ≠ 0 → plat = true → sa.addr.sun_path.head? = some 0 →
      SocketAddr.address plat off sa =
        .Abstract ((sa.addr.sun_path.take (sa.len - off)).drop 1)) ∧
    (sa.len - off ≠ 0 → sa.addr.sun_path.head? ≠ some 0 →
      SocketAddr.address plat off sa =
        .Pathname (sa.addr.sun_path.take (sa.len - off - 1))) := by
  refine ⟨?_, ?_, ?_⟩
  · intro h0
    rw [address_cases, if_pos (Or.inl h0)]
  · intro h0 hplat hhead
    subst hplat
    have h1 : ¬(sa.len - off = 0 ∨
        (true = false ∧ sa.addr.sun_path.head? = some 0)) := by
      rintro (h | ⟨h, -⟩)
      · exact h0 h
      · exact Bool.noConfusion h
    rw [address_cases, if_neg h1, if_pos hhead]
  · intro h0 hhead
    have h1 : ¬(sa.len - off = 0 ∨
        (plat = false ∧ sa.addr.sun_path.head? = some 0)) := by
      rintro (h | ⟨-, h⟩)
      · exact h0 h
      · exact hhead h
    rw [address_cases, if_neg h1, if_neg hhead]

/-- C5 witness: one concrete address per variant. -/
theorem c5_address_classification_witness :
    SocketAddr.address true 2 ⟨⟨AF_UNIX, [0, 5, 0]⟩, 4⟩ = .Abstract [5] ∧
    SocketAddr.address true 2 ⟨⟨AF_UNIX, [7]⟩, 2⟩ = .Unnamed ∧
    SocketAddr.address false 2 ⟨⟨AF_UNIX, [7, 0]⟩, 4⟩ = .Pathname [7] :=
  ⟨(c5_address_classification true 2 ⟨⟨AF_UNIX, [0, 5, 0]⟩, 4⟩).2.1
      (by decide) rfl rfl,
   (c5_address_classification true 2 ⟨⟨AF_UNIX, [7]⟩, 2⟩).1 (by decide),
   (c5_address_classification false 2 ⟨⟨AF_UNIX, [7, 0]⟩, 4⟩).2.2
      (by decide) (by decide)⟩

/-- C6: after a successful OS call (nonnegative return),
`SocketAddr::new` fails with the `InvalidInput` error "file descriptor
did not correspond to a Unix socket" exactly when the family field is
not `AF_UNIX`, and succeeds with the filled structure otherwise. -/
theorem c6_family_validation (osRet : Int) (addr : SockaddrUn) (len : Nat)
    (hret : 0 ≤ osRet) :
    (addr.sun_family ≠ AF_UNIX →
      SocketAddr.new osRet addr len =
        .error ⟨.invalidInput,
          "file descriptor did not correspond to a Unix socket"⟩) ∧
    (addr.sun_family = AF_UNIX →
      SocketAddr.new osRet addr len = .ok ⟨addr, len⟩) := by
  unfold SocketAddr.new
  rw [if_neg (by omega : ¬osRet < 0)]
  constructor
  · intro h
    rw [if_pos h]
  · intro h
    rw [if_neg (by simp [h])]

/-- C6 witness: family 2 is rejected, family `AF_UNIX` is accepted. -/
theorem c6_family_validation_witness :
    SocketAddr.new 0 ⟨2, [0]⟩ 3 =
      .error ⟨.invalidInput,
        "file descriptor did not correspond to a Unix socket"⟩ ∧
    SocketAddr.new 0 ⟨AF_UNIX, [0]⟩ 3 = .ok ⟨⟨AF_UNIX, [0]⟩, 3⟩ :=
  ⟨(c6_family_validation 0 ⟨2, [0]⟩ 3 (by decide)).1 (by decide),
   (c6_family_validation 0 ⟨AF_UNIX, [0]⟩ 3 (by decide)).2 rfl⟩

/-- C7: `set_timeout` rejects the exactly-zero duration with
`InvalidInput`; a nonzero duration whose clamped seconds and computed
microseconds are both zero gets its microsecond field bumped to 1;
a duration whose seconds exceed the platform maximum has its seconds
clamped to that maximum; and `none` produces the all-zero `timeval`
that clears the timeout. -/
theorem c7_set_timeout_behavior (tmax : Nat) (d : Duration) :
    (set_timeout tmax (some ⟨0, 0⟩) =
      .error ⟨.invalidInput, "cannot set a 0 duration timeout"⟩) ∧
    (¬(d.secs = 0 ∧ d.extra_nanos = 0) → min d.secs tmax = 0 →
      d.extra_nanos / 1000 = 0 →
      set_timeout tmax (some d) = .ok ⟨0, 1⟩) ∧
    (tmax < d.secs →
      ∃ tv, set_timeout tmax (some d) = .ok tv ∧ tv.tv_sec = tmax) ∧
    (set_timeout tmax none = .ok ⟨0, 0⟩) := by
  refine ⟨rfl, ?_, ?_, rfl⟩
  · intro hnz hmin hus
    have hsecs : (if tmax < d.secs then tmax else d.secs) = 0 := by
      split_ifs with h <;> omega
    simp only [set_timeout, if_neg hnz, hsecs, hus]
    norm_num
  · intro hlt
    have hnz : ¬(d.secs = 0 ∧ d.extra_nanos = 0) := by
      rintro ⟨h0, -⟩; omega
    simp only [set_timeout, if_neg hnz, if_pos hlt]
    split_ifs with h
    · exact ⟨⟨tmax, 1⟩, rfl, rfl⟩
    · exact ⟨⟨tmax, d.extra_nanos / 1000⟩, rfl, rfl⟩

/-- C7 witness: a 500-nanosecond duration is bumped to one microsecond,
and a 7-second duration is clamped to a 5-second platform maximum. -/
theorem c7_set_timeout_behavior_witness :
    set_timeout 5 (some ⟨0, 500⟩) = .ok ⟨0, 1⟩ ∧
    (∃ tv, set_timeout 5 (some ⟨7, 0⟩) = .ok tv ∧ tv.tv_sec = 5) :=
  ⟨(c7_set_timeout_behavior 5 ⟨0, 500⟩).2.1 (by decide) (by decide) (by decide),
   (c7_set_timeout_behavior 5 ⟨7, 0⟩).2.2.1 (by decide)⟩

/-- C9: in `recv_from`, when the sender address passes the family check,
a zero OS return is a success returning `(0, address)`, only a negative
return surfaces an OS error, and a positive return is a success with
that byte count. -/
theorem c9_recv_from_zero_byte (count : Int) (addr : SockaddrUn)
    (len : Nat) (hfam : addr.sun_family = AF_UNIX) :
    (count = 0 → recv_from count addr len = .ok (0, ⟨addr, len⟩)) ∧
    (count < 0 →
      ∃ e, recv_from count addr len = .error e ∧ e.kind = .osError) ∧
    (0 < count → recv_from count addr len = .ok (count.toNat, ⟨addr, len⟩)) := by
  refine ⟨?_, ?_, ?_⟩
  · intro h0
    subst h0
    simp [recv_from, SocketAddr.new, hfam]
  · intro hneg
    refine ⟨⟨.osError, "last OS error"⟩, ?_, rfl⟩
    simp only [recv_from, SocketAddr.new,
      if_neg (by omega : ¬(0 : Int) < count),
      if_neg (by omega : ¬count = 0)]
    norm_num
  · intro hpos
    simp only [recv_from, SocketAddr.new, if_pos hpos]
    norm_num [hfam]

/-- C9 witness at counts 0, -3 and 7. -/
theorem c9_recv_from_zero_byte_witness :
    recv_from 0 ⟨AF_UNIX, [0]⟩ 2 = .ok (0, ⟨⟨AF_UNIX, [0]⟩, 2⟩) ∧
    (∃ e, recv_from (-3) ⟨AF_UNIX, [0]⟩ 2 = .error e ∧ e.kind = .osError) ∧
    recv_from 7 ⟨AF_UNIX, [0]⟩ 2 = .ok (7, ⟨⟨AF_UNIX, [0]⟩, 2⟩) :=
  ⟨(c9_recv_from_zero_byte 0 ⟨AF_UNIX, [0]⟩ 2 rfl).1 rfl,
   (c9_recv_from_zero_byte (-3) ⟨AF_UNIX, [0]⟩ 2 rfl).2.1 (by decide),
   (c9_recv_from_zero_byte 7 ⟨AF_UNIX, [0]⟩ 2 rfl).2.2 (by decide)⟩

/-- C10: off Linux, `SocketAddr::address` classifies every address whose
first `sun_path` byte is zero as `Unnamed`, regardless of the reported
length and of later nonzero bytes, and never produces `Abstract`. -/
theorem c10_nonlinux_unnamed (off : Nat) (sa : SocketAddr) :
    (sa.addr.sun_path.head? = some 0 →
      SocketAddr.address false off sa = .Unnamed) ∧
    (∀ bs, SocketAddr.address false off sa ≠ .Abstract bs) := by
  constructor
  · intro h
    rw [address_cases, if_pos (Or.inr ⟨rfl, h⟩)]
  · intro bs
    rw [address_cases]
    split_ifs with h1 h2
    · simp
    · exact absurd (Or.inr ⟨rfl, h2⟩) h1
    · simp

/-- C10 witness: a non-Linux address with nonzero effective length and a
nonzero byte after the leading zero still decodes as `Unnamed`, not
`Abstract`. -/
theorem c10_nonlinux_unnamed_witness :
    SocketAddr.address false 2 ⟨⟨AF_UNIX, [0, 9]⟩, 4⟩ = .Unnamed ∧
    SocketAddr.address false 2 ⟨⟨AF_UNIX, [0, 9]⟩, 4⟩ ≠ .Abstract [9] :=
  ⟨(c10_nonlinux_unnamed 2 ⟨⟨AF_UNIX, [0, 9]⟩, 4⟩).1 rfl,
   (c10_nonlinux_unnamed 2 ⟨⟨AF_UNIX, [0, 9]⟩, 4⟩).2 [9]⟩

/-- One pull of `Incoming` spelled out: `Some` of the wrapped accept
result, the unchanged iterator, and the advanced OS state. -/
theorem incoming_next_eq (inc : Incoming) (w : OsWorld) :
    Incoming.next inc w =
      (some (acceptWrap (w.acceptResults w.acceptCount)), inc,
        ⟨w.acceptResults, w.acceptCount + 1⟩) := by
  cases h : w.acceptResults w.acceptCount with
  | error e => simp [Incoming.next, UnixListener.accept, acceptWrap, h]
  | ok fd => simp [Incoming.next, UnixListener.accept, acceptWrap, h]

/-- Unfolding equation for `Incoming.pulls` at a successor. -/
theorem incoming_pulls_succ (inc : Incoming) (w : OsWorld) (n : Nat) :
    Incoming.pulls inc w (n + 1) =
      ((Incoming.next inc w).1 ::
         (Incoming.pulls (Incoming.next inc w).2.1
           (Incoming.next inc w).2.2 n).1,
       (Incoming.pulls (Incoming.next inc w).2.1
         (Incoming.next inc w).2.2 n).2) := rfl

/-- C8: pulling `Incoming` any number of times always yields `Some` of a
fresh accept result — the OS accept outcomes in order, a new stream on
success or the error on failure — never `None`; the iterator state is
unchanged by the pulls, and an error result does not stop later pulls
from producing the subsequent accept results. -/
theorem c8_incoming_pulls (inc : Incoming) (w : OsWorld) (n : Nat) :
    (Incoming.pulls inc w n).1 =
      (List.range n).map
        (fun i => some (acceptWrap (w.acceptResults (w.acceptCount + i)))) ∧
    (Incoming.pulls inc w n).2.1 = inc ∧
    (Incoming.pulls inc w n).2.2.acceptResults = w.acceptResults ∧
    (Incoming.pulls inc w n).2.2.acceptCount = w.acceptCount + n := by
  induction n generalizing w with
  | zero => exact ⟨rfl, rfl, rfl, rfl⟩
  | succ n ih =>
    obtain ⟨ih1, ih2, ih3, ih4⟩ := ih ⟨w.acceptResults, w.acceptCount + 1⟩
    rw [incoming_pulls_succ, incoming_next_eq]
    dsimp only
    refine ⟨?_, ih2, ih3, ?_⟩
    · rw [ih1, List.range_succ_eq_map, List.map_cons, List.map_map,
        Nat.add_zero]
      dsimp only
      congr 1
      apply List.map_congr_left
      intro i hi
      have hadd : w.acceptCount + 1 + i = w.acceptCount + (i + 1) := by omega
      simp [Function.comp, hadd]
    · rw [ih4]
      dsimp only
      omega
